import Mathlib

/-!
Shallow embedding of the document indexing and retrieval core of the
`mindly` repository (`src/rag_chain.py`, `src/utils.py`).

Strings are modelled as `List Char`.  Python string primitives used by the
source (`str.strip`, `str.lower`, `re.sub("[^a-z0-9]+", "-", ·)`,
`str.strip("-")`, `str.title`, `str.replace`) are embedded as executable
functions over `List Char` with ASCII case semantics.

The external vector store backend (ChromaDB) is modelled as an explicit
finite association of collection names to passage lists, and the external
embedding-based ranking performed by `similarity_search` is a parameter
`rank : List Char → List Passage → List Passage` (the backend returns some
ranked selection of the stored passages; theorems that depend on results
coming from the collection take the hypothesis that `rank` selects from
its input).
-/

namespace Mindly

/-- ASCII model of Python `str.lower` applied to one character. -/
def lowerChar (c : Char) : Char :=
  if 'A' ≤ c ∧ c ≤ 'Z' then Char.ofNat (c.toNat + 32) else c

/-- ASCII model of Python `str.upper` applied to one character. -/
def upperChar (c : Char) : Char :=
  if 'a' ≤ c ∧ c ≤ 'z' then Char.ofNat (c.toNat - 32) else c

/-- Characters matching the regex class `[a-z0-9]` of `_slugify`. -/
def isAlnumLower (c : Char) : Bool :=
  decide ('a' ≤ c ∧ c ≤ 'z') || decide ('0' ≤ c ∧ c ≤ '9')

/-- ASCII alphabetic characters (cased characters for `str.title`). -/
def isAsciiAlpha (c : Char) : Bool :=
  decide ('a' ≤ c ∧ c ≤ 'z') || decide ('A' ≤ c ∧ c ≤ 'Z')

/-- Whitespace stripped by Python `str.strip()` (ASCII fragment). -/
def isPySpace (c : Char) : Bool :=
  c == ' ' || c == '\t' || c == '\n' || c == '\r' || c == '\x0b' || c == '\x0c'

/-- Python `str.strip()`: drop leading and trailing whitespace. -/
def pyStrip (l : List Char) : List Char :=
  ((l.dropWhile isPySpace).reverse.dropWhile isPySpace).reverse

/-- Python `str.strip("-")`: drop leading and trailing hyphens. -/
def stripHyphens (l : List Char) : List Char :=
  ((l.dropWhile (· == '-')).reverse.dropWhile (· == '-')).reverse

/-- Embedding of `re.sub(r"[^a-z0-9]+", "-", text)`: every maximal run of
characters outside `[a-z0-9]` is replaced by a single hyphen.  The Boolean
flag records whether we are currently inside such a run (so that only its
first character emits the hyphen). -/
def collapseAux : Bool → List Char → List Char
  | _, [] => []
  | inRun, c :: cs =>
    if isAlnumLower c then c :: collapseAux false cs
    else if inRun then collapseAux true cs
    else '-' :: collapseAux true cs

/-- `_slugify` from `rag_chain.py` (identical to `slugify` in `utils.py`):
`text.strip().lower()` followed by `re.sub(r"[^a-z0-9]+", "-", text).strip("-")`. -/
def _slugify (text : List Char) : List Char :=
  stripHyphens (collapseAux false ((pyStrip text).map lowerChar))

/-- `_get_collection_name` from `rag_chain.py`: `"course-" + slug`,
truncated to 63 characters when longer. -/
def _get_collection_name (course_name : List Char) : List Char :=
  let collection_name := ("course-".data) ++ _slugify course_name
  if collection_name.length > 63 then collection_name.take 63 else collection_name

def CHUNK_SIZE : Nat := 1200

/-- Configured chunk overlap (`CHUNK_OVERLAP`, default 200). -/
def CHUNK_OVERLAP : Nat := 200

/-- Configured default top-k (`TOP_K`, default 5). -/
def TOP_K : Nat := 5

/-- Modelled from the spec: the chunking algorithm run by `_split` lives in
the external `RecursiveCharacterTextSplitter` class, whose source is not
part of this repository.  The spec's Chunker contract (section 4.3) is the
fixed-window policy: each chunk after the first starts `size - overlap`
characters after the previous chunk's start.  `chunkFuel` is that policy,
made structurally recursive with a fuel argument (`fuel` is always taken
at least `text.length + 1`, which suffices when `overlap < size`). -/
def chunkFuel : Nat → Nat → Nat → List Char → List (List Char)
  | 0, _, _, _ => []
  | fuel + 1, size, overlap, text =>
    if text.length ≤ size then (if text.isEmpty then [] else [text])
    else text.take size :: chunkFuel fuel size overlap (text.drop (size - overlap))

/-- Modelled from the spec: `chunk(text, size, overlap)` of section 4.3. -/
def chunk (size overlap : Nat) (text : List Char) : List (List Char) :=
  chunkFuel (text.length + 1) size overlap text

/-- `_split` from `rag_chain.py`, with the library splitter replaced by the
spec-modelled fixed-window chunker at the configured size and overlap. -/
def _split (text : List Char) : List (List Char) :=
  chunk CHUNK_SIZE CHUNK_OVERLAP text

/-- Concatenation of a chunk list accounting for the overlap: the first
chunk in full, every later chunk with its first `overlap` characters (the
ones shared with its predecessor) removed. -/
def recon (overlap : Nat) : List (List Char) → List Char
  | [] => []
  | c :: cs => c ++ (cs.map (List.drop overlap)).flatten

/-- A document passage: chunk text plus the metadata dict
`{"source": f.name, "course": course_name}` attached in
`save_upload_and_index`. -/
structure Passage where
  text : List Char
  source : List Char
  course : List Char
deriving DecidableEq, Repr

/-- The vector store backend state: the collections it currently holds,
each a name with its stored passages. -/
structure Store where
  collections : List (List Char × List Passage)
deriving DecidableEq, Repr

/-- A ranking function standing in for the embedding-based similarity
ordering computed by the backend: given a query it arranges the stored
passages of a collection into a result order. -/
def Ranker : Type := List Char → List Passage → List Passage

/-- A ranker selects from the stored passages (no invented results). -/
def RankerSound (rank : Ranker) : Prop :=
  ∀ q l p, p ∈ rank q l → p ∈ l

/-- `client.get_collection(name=...)`: the existing collection, or failure
(`None` here) when no collection of that name exists. -/
def getCollection (st : Store) (name : List Char) : Option (List Passage) :=
  (st.collections.find? (fun p => p.1 == name)).map Prod.snd

/-- `_get_vectorstore` from `rag_chain.py`: look up the course's
collection; if it does not exist, return `none`; if it exists, probe it
with `similarity_search("test", k=1)` and return it only when the probe
yields at least one result. -/
def _get_vectorstore (rank : Ranker) (st : Store) (course_name : List Char) :
    Option (List Passage) :=
  match getCollection st (_get_collection_name course_name) with
  | none => none
  | some coll =>
    if ((rank ("test".data) coll).take 1).length > 0 then some coll else none

/-- `_get_relevant_documents` from `rag_chain.py`: empty when the course
has no usable vector store, otherwise `similarity_search(query, k=k)`. -/
def _get_relevant_documents (rank : Ranker) (st : Store) (course_name query : List Char)
    (k : Nat) : List Passage :=
  match _get_vectorstore rank st course_name with
  | none => []
  | some coll => (rank query coll).take k

/-- An uploaded file: its filename and the plain text the external
extractors (`PyPDF2` / UTF-8 decoding) produce from its bytes. -/
structure UploadedFile where
  name : List Char
  content : List Char
deriving DecidableEq, Repr

/-- The extension dispatch of `save_upload_and_index`: `.pdf` and `.txt`
files (case-insensitively) are read, any other extension is skipped. -/
def extractText (f : UploadedFile) : Option (List Char) :=
  let lowered := f.name.map lowerChar
  if (".pdf".data).isSuffixOf lowered then some f.content
  else if (".txt".data).isSuffixOf lowered then some f.content
  else none

/-- The chunk accumulation loop of `save_upload_and_index`: for each
supported file, split its text and keep every chunk whose `strip()` is
non-empty, tagged with source and course metadata. -/
def collectChunks (course_name : List Char) (files : List UploadedFile) : List Passage :=
  files.flatMap fun f =>
    match extractText f with
    | none => []
    | some raw =>
      ((_split raw).filter (fun c => !(pyStrip c).isEmpty)).map
        (fun c => { text := c, source := f.name, course := course_name })

/-- `save_upload_and_index` from `rag_chain.py`, at the vector-store
level: if no chunks were accumulated, return 0 leaving the store as it
was; otherwise delete the course's collection if present and create a
fresh one holding exactly the new chunks, returning their number. -/
def save_upload_and_index (st : Store) (course_name : List Char)
    (files : List UploadedFile) : Store × Nat :=
  let texts := collectChunks course_name files
  if texts.isEmpty then (st, 0)
  else
    let cname := _get_collection_name course_name
    ({ collections := (cname, texts) :: st.collections.filter (fun p => !(p.1 == cname)) },
     texts.length)

/-- The `ValueError` message raised by `get_retriever`. -/
def retrieverError (course_name : List Char) : List Char :=
  ("No vector store found for course: ".data) ++ course_name
    ++ (". Please upload files first.".data)

/-- `get_retriever` from `rag_chain.py`: the raised `ValueError` is
modelled as the `Except.error` branch; on success the retriever is the
usable vector store together with `search_kwargs={"k": TOP_K}`. -/
def get_retriever (rank : Ranker) (st : Store) (course_name : List Char) :
    Except (List Char) (List Passage × Nat) :=
  match _get_vectorstore rank st course_name with
  | none => Except.error (retrieverError course_name)
  | some coll => Except.ok (coll, TOP_K)

/-- The dict returned by `check_course_status` (configuration echo fields
`embedding_model` and `using_cloud` are omitted; `collection_name` is
`none` in the error dict, which does not carry that key). -/
structure CourseStatus where
  course_name : List Char
  collection_name : Option (List Char)
  has_vectorstore : Bool
  document_count : Nat
  is_ready : Bool
  error : Option (List Char)
deriving DecidableEq, Repr

/-- `check_course_status` from `rag_chain.py`.  The backend argument is
`Except.error e` when the client cannot be obtained at all (the outer
`except` branch), and `Except.ok st` when the backend is reachable with
state `st`; a missing collection leaves the defaulted status fields. -/
def check_course_status (backend : Except (List Char) Store)
    (course_name : List Char) : CourseStatus :=
  match backend with
  | Except.error e =>
    { course_name := course_name, collection_name := none, has_vectorstore := false
      document_count := 0, is_ready := false, error := some e }
  | Except.ok st =>
    let cname := _get_collection_name course_name
    match getCollection st cname with
    | none =>
      { course_name := course_name, collection_name := some cname
        has_vectorstore := false, document_count := 0, is_ready := false, error := none }
    | some coll =>
      { course_name := course_name, collection_name := some cname
        has_vectorstore := true, document_count := coll.length
        is_ready := decide (0 < coll.length), error := none }

/-- Python `str.replace("-", " ")` on one character. -/
def hyphenToSpace (c : Char) : Char :=
  if c = '-' then ' ' else c

/-- ASCII model of Python `str.title`: a cased character is uppercased
when the previous character was not cased, lowercased otherwise; the flag
records whether the previous character was cased. -/
def titleAux : Bool → List Char → List Char
  | _, [] => []
  | prevCased, c :: cs =>
    (if isAsciiAlpha c then (if prevCased then lowerChar c else upperChar c) else c)
      :: titleAux (isAsciiAlpha c) cs

/-- Python `str.title`. -/
def pyTitle (l : List Char) : List Char :=
  titleAux false l

/-- The display name `collection.name[7:].replace("-", " ").title()`
computed by `list_all_courses`. -/
def displayName (collection_name : List Char) : List Char :=
  pyTitle ((collection_name.drop 7).map hyphenToSpace)

/-- `list_all_courses` from `rag_chain.py` (connected-backend path): the
display names of all collections whose name starts with `"course-"`. -/
def list_all_courses (st : Store) : List (List Char) :=
  st.collections.filterMap fun p =>
    if ("course-".data).isPrefixOf p.1 then some (displayName p.1) else none

/-- The characters a slug may contain: regex class `[a-z0-9]` or hyphen. -/
def SlugChars (l : List Char) : Prop :=
  ∀ c ∈ l, isAlnumLower c = true ∨ c = '-'

/-- No two adjacent hyphens. -/
def NoHH (l : List Char) : Prop :=
  List.Chain' (fun a b => ¬(a = '-' ∧ b = '-')) l

/-- Boolean check that no two adjacent characters are both hyphens. -/
def noHHB : List Char → Bool
  | c1 :: c2 :: rest => !(c1 == '-' && c2 == '-') && noHHB (c2 :: rest)
  | _ => true

/-- Boolean form of a well-formed slug: non-empty, only `[a-z0-9-]`
characters, no adjacent hyphens, and no leading or trailing hyphen. -/
def goodSlugB (s : List Char) : Bool :=
  !s.isEmpty && s.all (fun c => isAlnumLower c || c == '-') && noHHB s
    && !(s.head? == some '-') && !(s.getLast? == some '-')

/-! Chunker lemmas. -/

theorem chunkFuel_flatten_drop (size overlap : Nat) (hov : overlap < size) :
    ∀ fuel (t : List Char), t.length < fuel →
      ((chunkFuel fuel size overlap t).map (List.drop overlap)).flatten = t.drop overlap := by
  intro fuel
  induction fuel with
  | zero => intro t ht; omega
  | succ fuel ih =>
    intro t ht
    by_cases hle : t.length ≤ size
    · by_cases hemp : t.isEmpty
      · have : t = [] := List.isEmpty_iff.mp hemp
        subst this
        simp [chunkFuel]
      · simp [chunkFuel, hle, hemp]
    · have hrec : chunkFuel (fuel + 1) size overlap t
        = t.take size :: chunkFuel fuel size overlap (t.drop (size - overlap)) := by
        simp [chunkFuel, hle]
      have hlen : (t.drop (size - overlap)).length < fuel := by
        rw [List.length_drop]; omega
      rw [hrec, List.map_cons, List.flatten_cons, ih _ hlen]
      rw [List.drop_drop, List.drop_take]
      have h1 : size - overlap + overlap = size := by omega
      rw [h1]
      have h2 : t.drop size = (t.drop overlap).drop (size - overlap) := by
        rw [List.drop_drop]; congr 1; omega
      rw [h2, List.take_append_drop]

theorem chunk_recon (size overlap : Nat) (hov : overlap < size) (t : List Char) :
    recon overlap (chunk size overlap t) = t := by
  unfold chunk
  by_cases hle : t.length ≤ size
  · by_cases hemp : t.isEmpty
    · have : t = [] := List.isEmpty_iff.mp hemp
      subst this
      simp [chunkFuel, recon]
    · simp [chunkFuel, hle, hemp, recon]
  · have hrec : chunkFuel (t.length + 1) size overlap t
      = t.take size :: chunkFuel t.length size overlap (t.drop (size - overlap)) := by
      simp [chunkFuel, hle]
    rw [hrec]
    have hlen : (t.drop (size - overlap)).length < t.length := by
      rw [List.length_drop]; omega
    show t.take size ++ _ = t
    rw [chunkFuel_flatten_drop size overlap hov t.length _ hlen]
    rw [List.drop_drop]
    have h1 : size - overlap + overlap = size := by omega
    rw [h1, List.take_append_drop]

theorem chunkFuel_cons_of_ne_nil (size overlap : Nat) (fuel : Nat) (t : List Char)
    (ht : t.length < fuel) (hne : t ≠ []) :
    ∃ cs, chunkFuel fuel size overlap t = t.take size :: cs := by
  cases fuel with
  | zero => omega
  | succ fuel =>
    by_cases hle : t.length ≤ size
    · refine ⟨[], ?_⟩
      have hemp : t.isEmpty = false := by
        cases t with
        | nil => exact absurd rfl hne
        | cons a l => rfl
      simp [chunkFuel, hle, hemp, List.take_of_length_le hle]
    · exact ⟨chunkFuel fuel size overlap (t.drop (size - overlap)), by simp [chunkFuel, hle]⟩

theorem chunkFuel_share (size overlap : Nat) (hov : overlap < size) :
    ∀ fuel (t : List Char), t.length < fuel →
      ∀ i c c', (chunkFuel fuel size overlap t).get? i = some c →
        (chunkFuel fuel size overlap t).get? (i + 1) = some c' →
        c.drop (size - overlap) = c'.take overlap ∧
        (c.drop (size - overlap)).length = overlap := by
  intro fuel
  induction fuel with
  | zero => intro t ht; omega
  | succ fuel ih =>
    intro t ht i c c' hc hc'
    by_cases hle : t.length ≤ size
    · exfalso
      by_cases hemp : t.isEmpty
      · rw [show chunkFuel (fuel + 1) size overlap t = [] by simp [chunkFuel, hle, hemp]] at hc
        simp at hc
      · rw [show chunkFuel (fuel + 1) size overlap t = [t] by
          simp [chunkFuel, hle, hemp]] at hc'
        rw [List.get?_cons_succ] at hc'
        simp at hc'
    · have hrec : chunkFuel (fuel + 1) size overlap t
        = t.take size :: chunkFuel fuel size overlap (t.drop (size - overlap)) := by
        simp [chunkFuel, hle]
      have hlen : (t.drop (size - overlap)).length < fuel := by
        rw [List.length_drop]; omega
      rw [hrec] at hc hc'
      cases i with
      | zero =>
        rw [List.get?_cons_zero] at hc
        rw [List.get?_cons_succ] at hc'
        injection hc with hc
        have hne : t.drop (size - overlap) ≠ [] := by
          intro hnil
          rw [hnil] at hc'
          cases fuel with
          | zero => simp [chunkFuel] at hc'
          | succ fuel => simp [chunkFuel] at hc'
        obtain ⟨cs, hcons⟩ := chunkFuel_cons_of_ne_nil size overlap fuel _ hlen hne
        rw [hcons, List.get?_cons_zero] at hc'
        injection hc' with hc'
        subst hc
        subst hc'
        have h1 : size - (size - overlap) = overlap := by omega
        have h2 : overlap ⊓ size = overlap := by omega
        constructor
        · rw [List.drop_take, List.take_take, h1, h2]
        · rw [List.drop_take, h1, List.length_take, List.length_drop]
          omega
      | succ i =>
        rw [List.get?_cons_succ] at hc hc'
        exact ih (t.drop (size - overlap)) hlen i c c' hc hc'

/-! Character-level facts about the ASCII case maps. -/

theorem char_toNat_ofNat_valid (n : Nat) (h : n.isValidChar) : (Char.ofNat n).toNat = n := by
  simp only [Char.ofNat, h, dite_true, Char.ofNatAux, Char.toNat]
  simp [UInt32.toNat, BitVec.toNat_ofNatLt]

theorem char_le_iff_toNat (a b : Char) : a ≤ b ↔ a.toNat ≤ b.toNat := by
  rw [Char.le_def]; rfl

theorem char_ofNat_toNat (c : Char) : Char.ofNat c.toNat = c := by
  apply Char.ext
  apply UInt32.toNat.inj
  exact char_toNat_ofNat_valid c.toNat c.valid

theorem isValidChar_of_le_90 {n : Nat} (h : n ≤ 122) : n.isValidChar :=
  Or.inl (by omega)

theorem lowerChar_of_upper {c : Char} (h1 : 'A' ≤ c) (h2 : c ≤ 'Z') :
    lowerChar c = Char.ofNat (c.toNat + 32) := by
  simp [lowerChar, h1, h2]

theorem lowerChar_of_not_upper {c : Char} (h : ¬('A' ≤ c ∧ c ≤ 'Z')) :
    lowerChar c = c := by
  simp [lowerChar, h]

theorem toNat_lowerChar_of_upper {c : Char} (h1 : 'A' ≤ c) (h2 : c ≤ 'Z') :
    (lowerChar c).toNat = c.toNat + 32 := by
  rw [lowerChar_of_upper h1 h2]
  apply char_toNat_ofNat_valid
  apply isValidChar_of_le_90
  have := (char_le_iff_toNat c 'Z').mp h2
  have hz : ('Z').toNat = 90 := by decide
  omega

theorem lowerChar_lowerChar (c : Char) : lowerChar (lowerChar c) = lowerChar c := by
  by_cases h : 'A' ≤ c ∧ c ≤ 'Z'
  · have hA := (char_le_iff_toNat 'A' c).mp h.1
    have hZ := (char_le_iff_toNat c 'Z').mp h.2
    have hAv : ('A').toNat = 65 := by decide
    have hZv : ('Z').toNat = 90 := by decide
    have hlo := toNat_lowerChar_of_upper h.1 h.2
    apply lowerChar_of_not_upper
    intro hcon
    have := (char_le_iff_toNat (lowerChar c) 'Z').mp hcon.2
    omega
  · rw [lowerChar_of_not_upper h, lowerChar_of_not_upper h]

theorem lowerChar_upperChar (c : Char) : lowerChar (upperChar c) = lowerChar c := by
  by_cases h : 'a' ≤ c ∧ c ≤ 'z'
  · have ha := (char_le_iff_toNat 'a' c).mp h.1
    have hz := (char_le_iff_toNat c 'z').mp h.2
    have hav : ('a').toNat = 97 := by decide
    have hzv : ('z').toNat = 122 := by decide
    have hup : upperChar c = Char.ofNat (c.toNat - 32) := by
      simp [upperChar, h]
    have hvalid : (c.toNat - 32).isValidChar := isValidChar_of_le_90 (by omega)
    have htn : (upperChar c).toNat = c.toNat - 32 := by
      rw [hup]; exact char_toNat_ofNat_valid _ hvalid
    have hA : 'A' ≤ upperChar c := by
      rw [char_le_iff_toNat, htn]
      have : ('A').toNat = 65 := by decide
      omega
    have hZ : upperChar c ≤ 'Z' := by
      rw [char_le_iff_toNat, htn]
      have : ('Z').toNat = 90 := by decide
      omega
    rw [lowerChar_of_upper hA hZ, htn]
    have hsub : c.toNat - 32 + 32 = c.toNat := by omega
    rw [hsub, char_ofNat_toNat]
    symm
    apply lowerChar_of_not_upper
    intro hcon
    have := (char_le_iff_toNat 'A' c).mp hcon.1
    have := (char_le_iff_toNat c 'Z').mp hcon.2
    have : ('Z').toNat = 90 := by decide
    omega
  · have hup : upperChar c = c := by simp [upperChar, h]
    rw [hup]

theorem lowerChar_eq_self_of_alnum {c : Char} (h : isAlnumLower c = true) :
    lowerChar c = c := by
  apply lowerChar_of_not_upper
  simp only [isAlnumLower, Bool.or_eq_true, decide_eq_true_eq] at h
  intro hcon
  rcases h with h | h
  · have h1 := (char_le_iff_toNat 'a' c).mp h.1
    have h2 := (char_le_iff_toNat c 'Z').mp hcon.2
    have : ('a').toNat = 97 := by decide
    have : ('Z').toNat = 90 := by decide
    omega
  · have h1 := (char_le_iff_toNat 'A' c).mp hcon.1
    have h2 := (char_le_iff_toNat c '9').mp h.2
    have : ('A').toNat = 65 := by decide
    have : ('9').toNat = 57 := by decide
    omega

theorem isPySpace_eq_false_of_alnum {c : Char} (h : isAlnumLower c = true) :
    isPySpace c = false := by
  by_contra hcon
  rw [Bool.not_eq_false] at hcon
  simp only [isPySpace, Bool.or_eq_true, beq_iff_eq] at hcon
  rcases hcon with ((((h' | h') | h') | h') | h') | h' <;>
    subst h' <;> simp [isAlnumLower] at h

theorem isPySpace_not_hyphen : isPySpace '-' = false := by decide

/-! Facts about the slugification pipeline. -/

theorem dropWhile_head?_false {α : Type} (p : α → Bool) :
    ∀ (l : List α) (x : α), (l.dropWhile p).head? = some x → p x = false := by
  intro l
  induction l with
  | nil => intro x h; simp at h
  | cons a l ih =>
    intro x h
    rw [List.dropWhile_cons] at h
    by_cases hpa : p a
    · rw [if_pos hpa] at h
      exact ih x h
    · rw [if_neg hpa] at h
      simp at h
      subst h
      simpa using hpa

theorem dropWhile_eq_self_of_forall {α : Type} (p : α → Bool) (l : List α)
    (h : ∀ c ∈ l, p c = false) : l.dropWhile p = l := by
  cases l with
  | nil => rfl
  | cons a l =>
    rw [List.dropWhile_cons, h a (List.mem_cons_self a l)]
    simp

theorem pyStrip_eq_self_of_no_space (l : List Char)
    (h : ∀ c ∈ l, isPySpace c = false) : pyStrip l = l := by
  unfold pyStrip
  rw [dropWhile_eq_self_of_forall _ l h]
  rw [dropWhile_eq_self_of_forall _ l.reverse (fun c hc => h c (List.mem_reverse.mp hc))]
  exact List.reverse_reverse l

theorem dropWhile_eq_self_of_head? {α : Type} (p : α → Bool) (l : List α)
    (h : ∀ x, l.head? = some x → p x = false) : l.dropWhile p = l := by
  cases l with
  | nil => rfl
  | cons a l =>
    rw [List.dropWhile_cons, h a rfl]
    simp

theorem stripHyphens_eq_self (l : List Char)
    (hhead : ∀ x, l.head? = some x → x ≠ '-')
    (hlast : ∀ x, l.getLast? = some x → x ≠ '-') : stripHyphens l = l := by
  unfold stripHyphens
  rw [dropWhile_eq_self_of_head? _ l
    (fun x hx => by simpa using hhead x hx)]
  rw [dropWhile_eq_self_of_head? _ l.reverse
    (fun x hx => by
      rw [List.head?_reverse] at hx
      simpa using hlast x hx)]
  exact List.reverse_reverse l

theorem mem_collapseAux : ∀ (l : List Char) (b : Bool) (c : Char),
    c ∈ collapseAux b l → isAlnumLower c = true ∨ c = '-' := by
  intro l
  induction l with
  | nil => intro b c h; simp [collapseAux] at h
  | cons a l ih =>
    intro b c h
    by_cases ha : isAlnumLower a
    · rw [show collapseAux b (a :: l) = a :: collapseAux false l by
        simp [collapseAux, ha]] at h
      rcases List.mem_cons.mp h with h | h
      · subst h; exact Or.inl ha
      · exact ih false c h
    · cases b with
      | true =>
        rw [show collapseAux true (a :: l) = collapseAux true l by
          simp [collapseAux, ha]] at h
        exact ih true c h
      | false =>
        rw [show collapseAux false (a :: l) = '-' :: collapseAux true l by
          simp [collapseAux, ha]] at h
        rcases List.mem_cons.mp h with h | h
        · subst h; exact Or.inr rfl
        · exact ih true c h

theorem collapseAux_true_head? : ∀ (l : List Char) (x : Char),
    (collapseAux true l).head? = some x → isAlnumLower x = true := by
  intro l
  induction l with
  | nil => intro x h; simp [collapseAux] at h
  | cons a l ih =>
    intro x h
    by_cases ha : isAlnumLower a
    · rw [show collapseAux true (a :: l) = a :: collapseAux false l by
        simp [collapseAux, ha]] at h
      simp at h
      subst h
      exact ha
    · rw [show collapseAux true (a :: l) = collapseAux true l by
        simp [collapseAux, ha]] at h
      exact ih x h

theorem chain'_collapseAux : ∀ (l : List Char) (b : Bool), NoHH (collapseAux b l) := by
  intro l
  induction l with
  | nil => intro b; simp [collapseAux, NoHH]
  | cons a l ih =>
    intro b
    by_cases ha : isAlnumLower a
    · rw [show collapseAux b (a :: l) = a :: collapseAux false l by
        simp [collapseAux, ha]]
      refine List.chain'_cons'.mpr ⟨?_, ih false⟩
      intro y _ hcon
      rw [hcon.1] at ha
      simp [isAlnumLower] at ha
    · cases b with
      | true =>
        rw [show collapseAux true (a :: l) = collapseAux true l by
          simp [collapseAux, ha]]
        exact ih true
      | false =>
        rw [show collapseAux false (a :: l) = '-' :: collapseAux true l by
          simp [collapseAux, ha]]
        refine List.chain'_cons'.mpr ⟨?_, ih true⟩
        intro y hy hcon
        have := collapseAux_true_head? l y hy
        rw [hcon.2] at this
        simp [isAlnumLower] at this

theorem collapseAux_false_eq_self : ∀ (l : List Char),
    SlugChars l → NoHH l → (∀ x, l.getLast? = some x → x ≠ '-') →
    collapseAux false l = l := by
  intro l
  induction l with
  | nil => intro _ _ _; rfl
  | cons a l ih =>
    intro hchars hchain hlast
    by_cases ha : isAlnumLower a
    · rw [show collapseAux false (a :: l) = a :: collapseAux false l by
        simp [collapseAux, ha]]
      cases l with
      | nil => rfl
      | cons a' l' =>
        rw [ih (fun c hc => hchars c (List.mem_cons_of_mem a hc))
          (List.chain'_cons'.mp hchain).2
          (fun x hx => hlast x (by rw [List.getLast?_cons_cons]; exact hx))]
    · have ha' : a = '-' := by
        rcases hchars a (List.mem_cons_self a l) with h | h
        · exact absurd h ha
        · exact h
      subst ha'
      cases l with
      | nil => exact absurd rfl (hlast '-' rfl)
      | cons a' l' =>
        have ha'' : isAlnumLower a' = true := by
          rcases hchars a' (List.mem_cons_of_mem _ (List.mem_cons_self a' l')) with h | h
          · exact h
          · exfalso
            exact (List.chain'_cons'.mp hchain).1 a' rfl ⟨rfl, h⟩
        rw [show collapseAux false ('-' :: a' :: l') = '-' :: collapseAux true (a' :: l') by
          simp [collapseAux, isAlnumLower]]
        rw [show collapseAux true (a' :: l') = a' :: collapseAux false l' by
          simp [collapseAux, ha'']]
        have hrest : collapseAux false (a' :: l') = a' :: collapseAux false l' := by
          simp [collapseAux, ha'']
        rw [← hrest]
        rw [ih (fun c hc => hchars c (List.mem_cons_of_mem _ hc))
          (List.chain'_cons'.mp hchain).2
          (fun x hx => hlast x (by rw [List.getLast?_cons_cons]; exact hx))]

theorem stripHyphens_front (l : List Char) :
    stripHyphens l <+: l.dropWhile (· == '-') := by
  unfold stripHyphens
  apply List.reverse_suffix.mp
  rw [List.reverse_reverse]
  exact List.dropWhile_suffix _

theorem stripHyphens_within (l : List Char) : stripHyphens l <:+: l := by
  have h1 := List.IsPrefix.isInfix (stripHyphens_front l)
  have h2 := List.IsSuffix.isInfix (@List.dropWhile_suffix Char l (fun x => x == '-'))
  exact h1.trans h2

theorem head?_stripHyphens (l : List Char) :
    ∀ x, (stripHyphens l).head? = some x → x ≠ '-' := by
  intro x hx
  obtain ⟨t, ht⟩ := stripHyphens_front l
  cases hs : stripHyphens l with
  | nil => rw [hs] at hx; simp at hx
  | cons a rest =>
    rw [hs] at hx
    simp at hx
    subst hx
    rw [hs] at ht
    have hm : (l.dropWhile (· == '-')).head? = some a := by
      rw [← ht]; rfl
    have := dropWhile_head?_false (· == '-') l a hm
    simpa using this

theorem getLast?_stripHyphens (l : List Char) :
    ∀ x, (stripHyphens l).getLast? = some x → x ≠ '-' := by
  intro x hx
  unfold stripHyphens at hx
  rw [List.getLast?_reverse] at hx
  have := dropWhile_head?_false (· == '-') (l.dropWhile (· == '-')).reverse x hx
  simpa using this

theorem slugify_good (s : List Char) :
    SlugChars (_slugify s) ∧ NoHH (_slugify s) ∧
    (∀ x, (_slugify s).head? = some x → x ≠ '-') ∧
    (∀ x, (_slugify s).getLast? = some x → x ≠ '-') := by
  refine ⟨?_, ?_, head?_stripHyphens _, getLast?_stripHyphens _⟩
  · intro c hc
    exact mem_collapseAux _ false c
      (List.Sublist.mem hc (stripHyphens_within _).sublist)
  · exact List.Chain'.infix (chain'_collapseAux _ false) (stripHyphens_within _)

theorem map_eq_self_of_fixed {α : Type} (f : α → α) :
    ∀ (l : List α), (∀ c ∈ l, f c = c) → l.map f = l := by
  intro l
  induction l with
  | nil => intro _; rfl
  | cons a l ih =>
    intro h
    rw [List.map_cons, h a (List.mem_cons_self a l),
      ih (fun c hc => h c (List.mem_cons_of_mem a hc))]

theorem map_lowerChar_slug (l : List Char) (h : SlugChars l) : l.map lowerChar = l := by
  apply map_eq_self_of_fixed
  intro c hc
  rcases h c hc with hc' | hc'
  · exact lowerChar_eq_self_of_alnum hc'
  · subst hc'; decide

theorem pyStrip_slug (l : List Char) (h : SlugChars l) : pyStrip l = l := by
  apply pyStrip_eq_self_of_no_space
  intro c hc
  rcases h c hc with hc' | hc'
  · exact isPySpace_eq_false_of_alnum hc'
  · subst hc'; exact isPySpace_not_hyphen

theorem stripHyphens_eq_self_of_good (l : List Char)
    (hhead : ∀ x, l.head? = some x → x ≠ '-')
    (hlast : ∀ x, l.getLast? = some x → x ≠ '-') : stripHyphens l = l :=
  stripHyphens_eq_self l hhead hlast

/-! Round-trip of listed course names (for C10). -/

theorem noHH_of_noHHB : ∀ (s : List Char), noHHB s = true → NoHH s := by
  intro s
  induction s with
  | nil => intro _; simp [NoHH]
  | cons c1 rest ih =>
    intro h
    cases rest with
    | nil => simp [NoHH]
    | cons c2 rest' =>
      rw [noHHB, Bool.and_eq_true] at h
      refine List.chain'_cons.mpr ⟨?_, ih h.2⟩
      intro hcon
      rw [hcon.1, hcon.2] at h
      simpa using h.1

theorem titleAux_map_lowerChar :
    ∀ (l : List Char) (b : Bool), (titleAux b l).map lowerChar = l.map lowerChar := by
  intro l
  induction l with
  | nil => intro b; rfl
  | cons c cs ih =>
    intro b
    rw [titleAux, List.map_cons, List.map_cons, ih]
    congr 1
    by_cases hc : isAsciiAlpha c
    · rw [if_pos hc]
      by_cases hb : b
      · rw [if_pos hb]; exact lowerChar_lowerChar c
      · rw [if_neg hb]; exact lowerChar_upperChar c
    · rw [if_neg hc]

theorem isPySpace_true_toNat {c : Char} (h : isPySpace c = true) : c.toNat ≤ 32 := by
  simp only [isPySpace, Bool.or_eq_true, beq_iff_eq] at h
  rcases h with ((((h | h) | h) | h) | h) | h <;> subst h <;> decide

theorem isPySpace_lowerChar (c : Char) : isPySpace (lowerChar c) = isPySpace c := by
  by_cases h : 'A' ≤ c ∧ c ≤ 'Z'
  · have h1 := (char_le_iff_toNat 'A' c).mp h.1
    have h2 := (char_le_iff_toNat c 'Z').mp h.2
    have hA : ('A').toNat = 65 := by decide
    have hZ : ('Z').toNat = 90 := by decide
    have hlo := toNat_lowerChar_of_upper h.1 h.2
    have hc : isPySpace c = false := by
      by_contra hcon
      rw [Bool.not_eq_false] at hcon
      have := isPySpace_true_toNat hcon
      omega
    have hlc : isPySpace (lowerChar c) = false := by
      by_contra hcon
      rw [Bool.not_eq_false] at hcon
      have := isPySpace_true_toNat hcon
      omega
    rw [hc, hlc]
  · rw [lowerChar_of_not_upper h]

theorem dropWhile_map {α : Type} (f : α → α) (p : α → Bool)
    (hfp : ∀ c, p (f c) = p c) :
    ∀ (l : List α), (l.map f).dropWhile p = (l.dropWhile p).map f := by
  intro l
  induction l with
  | nil => rfl
  | cons a l ih =>
    rw [List.map_cons, List.dropWhile_cons, List.dropWhile_cons, hfp a]
    by_cases hpa : p a
    · rw [if_pos hpa, if_pos hpa, ih]
    · rw [if_neg hpa, if_neg hpa, List.map_cons]

theorem pyStrip_map_lowerChar (l : List Char) :
    pyStrip (l.map lowerChar) = (pyStrip l).map lowerChar := by
  unfold pyStrip
  rw [dropWhile_map lowerChar isPySpace isPySpace_lowerChar l]
  rw [← List.map_reverse, dropWhile_map lowerChar isPySpace isPySpace_lowerChar]
  rw [← List.map_reverse]

theorem slugify_congr {l l' : List Char}
    (h : l.map lowerChar = l'.map lowerChar) : _slugify l = _slugify l' := by
  unfold _slugify
  rw [← pyStrip_map_lowerChar l, ← pyStrip_map_lowerChar l', h]

theorem slugify_pyTitle (l : List Char) : _slugify (pyTitle l) = _slugify l :=
  slugify_congr (titleAux_map_lowerChar l false)

theorem alnum_ne_hyphen {c : Char} (h : isAlnumLower c = true) : c ≠ '-' := by
  intro hcon
  subst hcon
  exact absurd h (by decide)

theorem collapse_map_hyphenToSpace : ∀ (s : List Char),
    SlugChars s → NoHH s → (∀ x, s.getLast? = some x → x ≠ '-') →
    collapseAux false (s.map hyphenToSpace) = s := by
  intro s
  induction s with
  | nil => intro _ _ _; rfl
  | cons a cs ih =>
    intro hchars hchain hlast
    by_cases ha : isAlnumLower a
    · have hrep : hyphenToSpace a = a := by
        unfold hyphenToSpace
        rw [if_neg (alnum_ne_hyphen ha)]
      rw [List.map_cons, hrep,
        show collapseAux false (a :: cs.map hyphenToSpace)
          = a :: collapseAux false (cs.map hyphenToSpace) by simp [collapseAux, ha]]
      cases cs with
      | nil => rfl
      | cons a' cs' =>
        rw [ih (fun c hc => hchars c (List.mem_cons_of_mem a hc))
          (List.chain'_cons'.mp hchain).2
          (fun x hx => hlast x (by rw [List.getLast?_cons_cons]; exact hx))]
    · have ha' : a = '-' := by
        rcases hchars a (List.mem_cons_self a cs) with h | h
        · exact absurd h ha
        · exact h
      subst ha'
      cases cs with
      | nil => exact absurd rfl (hlast '-' rfl)
      | cons a' cs' =>
        have ha'' : isAlnumLower a' = true := by
          rcases hchars a' (List.mem_cons_of_mem _ (List.mem_cons_self a' cs')) with h | h
          · exact h
          · exfalso
            exact (List.chain'_cons'.mp hchain).1 a' rfl ⟨rfl, h⟩
        have hrep' : hyphenToSpace a' = a' := by
          unfold hyphenToSpace
          rw [if_neg (alnum_ne_hyphen ha'')]
        rw [List.map_cons, List.map_cons, hrep']
        rw [show collapseAux false (hyphenToSpace '-' :: a' :: cs'.map hyphenToSpace)
            = '-' :: collapseAux true (a' :: cs'.map hyphenToSpace) by
          simp [collapseAux, hyphenToSpace, isAlnumLower]]
        rw [show collapseAux true (a' :: cs'.map hyphenToSpace)
            = a' :: collapseAux false (cs'.map hyphenToSpace) by
          simp [collapseAux, ha'']]
        rw [show (a' : Char) :: collapseAux false (cs'.map hyphenToSpace)
            = collapseAux false ((a' :: cs').map hyphenToSpace) by
          rw [List.map_cons, hrep']
          simp [collapseAux, ha'']]
        rw [ih (fun c hc => hchars c (List.mem_cons_of_mem _ hc))
          (List.chain'_cons'.mp hchain).2
          (fun x hx => hlast x (by rw [List.getLast?_cons_cons]; exact hx))]

theorem pyStrip_eq_self_of_ends (l : List Char)
    (hhead : ∀ x, l.head? = some x → isPySpace x = false)
    (hlast : ∀ x, l.getLast? = some x → isPySpace x = false) : pyStrip l = l := by
  unfold pyStrip
  rw [dropWhile_eq_self_of_head? _ l hhead]
  rw [dropWhile_eq_self_of_head? _ l.reverse
    (fun x hx => hlast x (by rw [← List.head?_reverse]; exact hx))]
  exact List.reverse_reverse l

theorem slug_head_alnum {s : List Char} (hchars : SlugChars s)
    (hhead : ∀ x, s.head? = some x → x ≠ '-') :
    ∀ x, s.head? = some x → isAlnumLower x = true := by
  intro x hx
  rcases hchars x (List.mem_of_mem_head? hx) with h | h
  · exact h
  · exact absurd h (hhead x hx)

theorem slug_last_alnum {s : List Char} (hchars : SlugChars s)
    (hlast : ∀ x, s.getLast? = some x → x ≠ '-') :
    ∀ x, s.getLast? = some x → isAlnumLower x = true := by
  intro x hx
  rcases hchars x (List.mem_of_mem_getLast? hx) with h | h
  · exact h
  · exact absurd h (hlast x hx)

theorem hyphenToSpace_of_alnum {c : Char} (h : isAlnumLower c = true) :
    hyphenToSpace c = c := by
  unfold hyphenToSpace
  rw [if_neg (alnum_ne_hyphen h)]

theorem pyStrip_map_rep_eq (s : List Char) (hchars : SlugChars s)
    (hhead : ∀ x, s.head? = some x → x ≠ '-')
    (hlast : ∀ x, s.getLast? = some x → x ≠ '-') :
    pyStrip (s.map hyphenToSpace) = s.map hyphenToSpace := by
  apply pyStrip_eq_self_of_ends
  · intro x hx
    rw [List.head?_map] at hx
    cases hy : s.head? with
    | none => rw [hy] at hx; simp at hx
    | some y =>
      rw [hy] at hx
      simp at hx
      have hy' := slug_head_alnum hchars hhead y hy
      rw [hyphenToSpace_of_alnum hy'] at hx
      subst hx
      exact isPySpace_eq_false_of_alnum hy'
  · intro x hx
    rw [List.getLast?_map] at hx
    cases hy : s.getLast? with
    | none => rw [hy] at hx; simp at hx
    | some y =>
      rw [hy] at hx
      simp at hx
      have hy' := slug_last_alnum hchars hlast y hy
      rw [hyphenToSpace_of_alnum hy'] at hx
      subst hx
      exact isPySpace_eq_false_of_alnum hy'

theorem map_lowerChar_map_rep (s : List Char) (hchars : SlugChars s) :
    (s.map hyphenToSpace).map lowerChar = s.map hyphenToSpace := by
  apply map_eq_self_of_fixed
  intro c hc
  rw [List.mem_map] at hc
  obtain ⟨d, hd, hrep⟩ := hc
  rcases hchars d hd with h | h
  · rw [← hrep, hyphenToSpace_of_alnum h]
    exact lowerChar_eq_self_of_alnum h
  · subst h
    rw [← hrep]
    decide

theorem slugify_map_rep_eq (s : List Char) (hchars : SlugChars s) (hchain : NoHH s)
    (hhead : ∀ x, s.head? = some x → x ≠ '-')
    (hlast : ∀ x, s.getLast? = some x → x ≠ '-') :
    _slugify (s.map hyphenToSpace) = s := by
  unfold _slugify
  rw [pyStrip_map_rep_eq s hchars hhead hlast, map_lowerChar_map_rep s hchars,
    collapse_map_hyphenToSpace s hchars hchain hlast,
    stripHyphens_eq_self s hhead hlast]

theorem goodSlugB_unpack {s : List Char} (h : goodSlugB s = true) :
    SlugChars s ∧ NoHH s ∧
    (∀ x, s.head? = some x → x ≠ '-') ∧
    (∀ x, s.getLast? = some x → x ≠ '-') := by
  unfold goodSlugB at h
  simp only [Bool.and_eq_true] at h
  obtain ⟨⟨⟨⟨_, hall⟩, hhh⟩, hhd⟩, hlt⟩ := h
  refine ⟨?_, noHH_of_noHHB s hhh, ?_, ?_⟩
  · intro c hc
    have := List.all_eq_true.mp hall c hc
    simpa using this
  · intro x hx hcon
    subst hcon
    rw [hx] at hhd
    simp at hhd
  · intro x hx hcon
    subst hcon
    rw [hx] at hlt
    simp at hlt

/-! Claim theorems. -/

/-- C2: for every text and fixed `(size, overlap)` with `overlap < size`,
the chunks reconstruct the original text when concatenated accounting for
the overlap, and every two consecutive chunks share exactly `overlap`
characters (the trailing `overlap` characters of each non-final chunk are
precisely the leading `overlap` characters of its successor). -/
theorem c2_chunk_reconstruction_and_overlap (size overlap : Nat) (t : List Char)
    (hov : overlap < size) :
    recon overlap (chunk size overlap t) = t ∧
    ∀ i c c', (chunk size overlap t).get? i = some c →
      (chunk size overlap t).get? (i + 1) = some c' →
      c.drop (size - overlap) = c'.take overlap ∧
      (c.drop (size - overlap)).length = overlap :=
  ⟨chunk_recon size overlap hov t,
   fun i c c' hc hc' =>
     chunkFuel_share size overlap hov (t.length + 1) t (Nat.lt_succ_self _) i c c' hc hc'⟩

/-- Witness for C2 at `size = 5`, `overlap = 2`, text `"abcdefgh"`. -/
theorem c2_chunk_reconstruction_and_overlap_witness :
    2 < 5 ∧
    (recon 2 (chunk 5 2 ("abcdefgh".data)) = ("abcdefgh".data) ∧
     ∀ i c c', (chunk 5 2 ("abcdefgh".data)).get? i = some c →
       (chunk 5 2 ("abcdefgh".data)).get? (i + 1) = some c' →
       c.drop (5 - 2) = c'.take 2 ∧ (c.drop (5 - 2)).length = 2) :=
  ⟨by decide, c2_chunk_reconstruction_and_overlap 5 2 ("abcdefgh".data) (by decide)⟩

/-- C3: retrieval on a course whose collection does not exist returns the
empty list (for any ranking the backend might use and any query and k). -/
theorem c3_retrieve_missing_collection_empty (rank : Ranker) (st : Store)
    (course_name query : List Char) (k : Nat)
    (h : getCollection st (_get_collection_name course_name) = none) :
    _get_relevant_documents rank st course_name query k = [] := by
  simp [_get_relevant_documents, _get_vectorstore, h]

/-- Witness for C3: `retrieve("NoSuchCourse", "anything", k=5) == []` on an
empty backend. -/
theorem c3_retrieve_missing_collection_empty_witness :
    getCollection ⟨[]⟩ (_get_collection_name ("NoSuchCourse".data)) = none ∧
    _get_relevant_documents (fun _ l => l) ⟨[]⟩ ("NoSuchCourse".data) ("anything".data) 5
      = [] :=
  ⟨by decide,
   c3_retrieve_missing_collection_empty (fun _ l => l) ⟨[]⟩ ("NoSuchCourse".data)
     ("anything".data) 5 (by decide)⟩

/-- C4: on a reachable backend, `check_course_status` reports
`is_ready = true` exactly when the collection exists (`has_vectorstore`)
with `document_count > 0`, and `has_vectorstore` exactly when the
collection exists; on backend connectivity failure it returns a status
object carrying the error with `is_ready = false` (the function is total,
so it never raises to the caller). -/
theorem c4_course_status_ready_iff_and_error :
    ∀ (st : Store) (e course_name : List Char),
      ((check_course_status (Except.ok st) course_name).is_ready = true ↔
        (check_course_status (Except.ok st) course_name).has_vectorstore = true ∧
        0 < (check_course_status (Except.ok st) course_name).document_count) ∧
      ((check_course_status (Except.ok st) course_name).has_vectorstore = true ↔
        (getCollection st (_get_collection_name course_name)).isSome = true) ∧
      (check_course_status (Except.error e) course_name).error = some e ∧
      (check_course_status (Except.error e) course_name).is_ready = false := by
  intro st e course_name
  cases hcoll : getCollection st (_get_collection_name course_name) with
  | none => simp [check_course_status, hcoll]
  | some coll => simp [check_course_status, hcoll]

/-- C8: when the accumulated chunk list is empty (no supported files, or
every chunk whitespace-only), `save_upload_and_index` returns 0 and the
vector store is exactly what it was: no collection deleted, created or
modified. -/
theorem c8_empty_batch_leaves_store_untouched (st : Store) (course_name : List Char)
    (files : List UploadedFile) (h : collectChunks course_name files = []) :
    save_upload_and_index st course_name files = (st, 0) := by
  simp [save_upload_and_index, h]

/-- Witness for C8: an upload batch with a single unsupported `.doc` file
against a backend already holding a collection. -/
theorem c8_empty_batch_leaves_store_untouched_witness :
    collectChunks ("Physics".data)
      [{ name := ("slides.doc".data), content := ("lecture".data) }] = [] ∧
    save_upload_and_index
      ⟨[(("course-physics".data),
         [{ text := ("old".data), source := ("old.txt".data), course := ("Physics".data) }])]⟩
      ("Physics".data)
      [{ name := ("slides.doc".data), content := ("lecture".data) }]
      = (⟨[(("course-physics".data),
            [{ text := ("old".data), source := ("old.txt".data),
               course := ("Physics".data) }])]⟩, 0) :=
  ⟨by decide,
   c8_empty_batch_leaves_store_untouched _ _ _ (by decide)⟩

/-- C9: a course whose collection exists but whose probe similarity search
(`similarity_search("test", k=1)`) yields zero results makes
`_get_vectorstore` return `none`, so retrieval treats it exactly like a
course with no collection and returns the empty list. -/
theorem c9_empty_probe_treated_as_missing (rank : Ranker) (st : Store)
    (course_name : List Char) (coll : List Passage)
    (h1 : getCollection st (_get_collection_name course_name) = some coll)
    (h2 : (rank ("test".data) coll).take 1 = []) :
    _get_vectorstore rank st course_name = none ∧
    ∀ query k, _get_relevant_documents rank st course_name query k = [] := by
  have hv : _get_vectorstore rank st course_name = none := by
    simp [_get_vectorstore, h1, h2]
  exact ⟨hv, fun query k => by simp [_get_relevant_documents, hv]⟩

/-- Witness for C9: an existing but empty collection, with the identity
ranking. -/
theorem c9_empty_probe_treated_as_missing_witness :
    (getCollection ⟨[(("course-history".data), ([] : List Passage))]⟩
        (_get_collection_name ("History".data)) = some [] ∧
     ((fun (_ : List Char) (l : List Passage) => l) ("test".data) []).take 1 = []) ∧
    (_get_vectorstore (fun _ l => l) ⟨[(("course-history".data), [])]⟩ ("History".data)
        = none ∧
     ∀ query k, _get_relevant_documents (fun _ l => l)
        ⟨[(("course-history".data), [])]⟩ ("History".data) query k = []) :=
  ⟨⟨by decide, by decide⟩,
   c9_empty_probe_treated_as_missing (fun _ l => l) ⟨[(("course-history".data), [])]⟩
     ("History".data) [] (by decide) (by decide)⟩

theorem source_mem_of_mem_collectChunks (course_name : List Char)
    (files : List UploadedFile) (p : Passage)
    (h : p ∈ collectChunks course_name files) :
    p.source ∈ files.map UploadedFile.name := by
  unfold collectChunks at h
  rw [List.mem_flatMap] at h
  obtain ⟨f, hf, hp⟩ := h
  cases hext : extractText f with
  | none => rw [hext] at hp; simp at hp
  | some raw =>
    rw [hext] at hp
    rw [List.mem_map] at hp
    obtain ⟨c, _, hc⟩ := hp
    rw [List.mem_map]
    exact ⟨f, hf, by rw [← hc]⟩

/-- C1 counterexample: the claim as stated fails on the code.  A non-empty
upload batch consisting of one unsupported (`.doc`) file produces no
chunks, so `save_upload_and_index` returns 0 and leaves the existing
collection in place; retrieval afterwards still returns the old passage,
whose source filename is absent from the second batch. -/
theorem c1_counterexample :
    (save_upload_and_index
        ⟨[(("course-physics".data),
           [{ text := ("Newton".data), source := ("old.txt".data),
              course := ("Physics".data) }])]⟩
        ("Physics".data)
        [{ name := ("notes.doc".data), content := ("new material".data) }]).2 = 0 ∧
    _get_relevant_documents (fun _ l => l)
      (save_upload_and_index
        ⟨[(("course-physics".data),
           [{ text := ("Newton".data), source := ("old.txt".data),
              course := ("Physics".data) }])]⟩
        ("Physics".data)
        [{ name := ("notes.doc".data), content := ("new material".data) }]).1
      ("Physics".data) ("force".data) 5
      = [{ text := ("Newton".data), source := ("old.txt".data),
           course := ("Physics".data) }] ∧
    (("old.txt".data) ∈
      [{ name := ("notes.doc".data),
         content := ("new material".data) : UploadedFile }].map UploadedFile.name)
      = False := by
  refine ⟨by decide, by decide, by simp⟩

/-- C1 amended: for every batch whose accumulated chunk list is non-empty,
`save_upload_and_index` deletes the prior collection and creates a fresh
one holding only the new batch's chunks, so a subsequent retrieval only
ever returns passages whose source is a filename of the new batch. -/
theorem c1_amended_replace_semantics (rank : Ranker) (st : Store)
    (course_name : List Char) (files : List UploadedFile) (query : List Char) (k : Nat)
    (hrank : RankerSound rank)
    (hne : collectChunks course_name files ≠ []) :
    ∀ p ∈ _get_relevant_documents rank (save_upload_and_index st course_name files).1
        course_name query k,
      p.source ∈ files.map UploadedFile.name := by
  intro p hp
  have hgc : getCollection (save_upload_and_index st course_name files).1
      (_get_collection_name course_name) = some (collectChunks course_name files) := by
    simp [save_upload_and_index, hne, getCollection]
  unfold _get_relevant_documents at hp
  cases hv : _get_vectorstore rank (save_upload_and_index st course_name files).1
      course_name with
  | none => rw [hv] at hp; simp at hp
  | some coll =>
    rw [hv] at hp
    dsimp only at hp
    have hcoll : coll = collectChunks course_name files := by
      unfold _get_vectorstore at hv
      rw [hgc] at hv
      dsimp only at hv
      by_cases hprobe :
          ((rank ("test".data) (collectChunks course_name files)).take 1).length > 0
      · rw [if_pos hprobe] at hv
        injection hv with h
        exact h.symm
      · rw [if_neg hprobe] at hv
        exact absurd hv (by simp)
    subst hcoll
    exact source_mem_of_mem_collectChunks course_name files p
      (hrank query _ p (List.mem_of_mem_take hp))

/-- Witness for the amended C1: a batch with one `.txt` file against a
backend holding an older collection for the course. -/
theorem c1_amended_replace_semantics_witness :
    (RankerSound (fun _ l => l) ∧
     collectChunks ("Physics".data)
       [{ name := ("notes.txt".data), content := ("hello".data) }] ≠ []) ∧
    ∀ p ∈ _get_relevant_documents (fun _ l => l)
        (save_upload_and_index
          ⟨[(("course-physics".data),
             [{ text := ("Newton".data), source := ("old.txt".data),
                course := ("Physics".data) }])]⟩
          ("Physics".data)
          [{ name := ("notes.txt".data), content := ("hello".data) }]).1
        ("Physics".data) ("force".data) 5,
      p.source ∈ [{ name := ("notes.txt".data),
                    content := ("hello".data) : UploadedFile }].map UploadedFile.name :=
  ⟨⟨fun _ _ _ h => h, by decide⟩,
   c1_amended_replace_semantics (fun _ l => l)
     ⟨[(("course-physics".data),
        [{ text := ("Newton".data), source := ("old.txt".data),
           course := ("Physics".data) }])]⟩
     ("Physics".data)
     [{ name := ("notes.txt".data), content := ("hello".data) }]
     ("force".data) 5 (fun _ _ _ h => h) (by decide)⟩

/-- C6: the collection name is `"course-"` followed by the slug, truncated
to at most 63 characters; and the spec's concrete scenario for
`"Data Structures & Algorithms!!"`. -/
theorem c6_collection_name_rule :
    (∀ course_name, _get_collection_name course_name
        = (("course-".data) ++ _slugify course_name).take 63) ∧
    _slugify ("Data Structures & Algorithms!!".data)
      = ("data-structures-algorithms".data) ∧
    _get_collection_name ("Data Structures & Algorithms!!".data)
      = ("course-data-structures-algorithms".data) := by
  refine ⟨?_, by decide, by decide⟩
  intro course_name
  simp only [_get_collection_name]
  split
  next h => rfl
  next h => rw [List.take_of_length_le (by omega)]

/-- C7 counterexample: the claim as stated fails on the code.
`get_retriever` on a course with no usable vector store does not map the
missing collection to an empty result: it raises
`ValueError(f"No vector store found for course: ...")`, modelled here as
the `Except.error` branch. -/
theorem c7_counterexample :
    get_retriever (fun _ l => l) ⟨[]⟩ ("NoSuchCourse".data)
      = Except.error (retrieverError ("NoSuchCourse".data)) := by
  rfl

/-- C7 amended: retrieval and status map a missing collection to
empty-result / not-ready semantics rather than raising, but
`get_retriever` is the exception: on a course with no usable vector store
it raises a `ValueError`. -/
theorem c7_amended_missing_collection_semantics (rank : Ranker) (st : Store)
    (course_name query : List Char) (k : Nat)
    (h : getCollection st (_get_collection_name course_name) = none) :
    _get_relevant_documents rank st course_name query k = [] ∧
    (check_course_status (Except.ok st) course_name).is_ready = false ∧
    get_retriever rank st course_name = Except.error (retrieverError course_name) := by
  refine ⟨?_, ?_, ?_⟩
  · simp [_get_relevant_documents, _get_vectorstore, h]
  · simp [check_course_status, h]
  · simp [get_retriever, _get_vectorstore, h]

/-- Witness for the amended C7 on an empty backend. -/
theorem c7_amended_missing_collection_semantics_witness :
    getCollection ⟨[]⟩ (_get_collection_name ("Chemistry".data)) = none ∧
    (_get_relevant_documents (fun _ l => l) ⟨[]⟩ ("Chemistry".data) ("anything".data) 5
        = [] ∧
     (check_course_status (Except.ok ⟨[]⟩) ("Chemistry".data)).is_ready = false ∧
     get_retriever (fun _ l => l) ⟨[]⟩ ("Chemistry".data)
        = Except.error (retrieverError ("Chemistry".data))) :=
  ⟨by decide,
   c7_amended_missing_collection_semantics (fun _ l => l) ⟨[]⟩ ("Chemistry".data)
     ("anything".data) 5 (by decide)⟩

/-- C5: `_slugify` (the pure slugification shared by `rag_chain.py` and
`utils.py`) is idempotent on every string. -/
theorem c5_slugify_idempotent (s : List Char) : _slugify (_slugify s) = _slugify s := by
  obtain ⟨hchars, hchain, hhead, hlast⟩ := slugify_good s
  show stripHyphens (collapseAux false ((pyStrip (_slugify s)).map lowerChar)) = _slugify s
  rw [pyStrip_slug _ hchars, map_lowerChar_slug _ hchars,
    collapseAux_false_eq_self _ hchars hchain hlast,
    stripHyphens_eq_self _ hhead hlast]

/-- C10: a well-formed slug `s` (non-empty, only `[a-z0-9-]`, no leading,
trailing, or adjacent hyphens) round-trips: the course name displayed by
`list_all_courses` for the collection `"course-" ++ s` slugifies back to
`s`. -/
theorem c10_listed_course_names_round_trip (s : List Char) (coll : List Passage)
    (hgood : goodSlugB s = true) :
    ∀ name ∈ list_all_courses ⟨[((("course-".data) ++ s), coll)]⟩,
      _slugify name = s := by
  obtain ⟨hchars, hchain, hhead, hlast⟩ := goodSlugB_unpack hgood
  intro name hname
  have hpre : (("course-".data).isPrefixOf (("course-".data) ++ s)) = true :=
    List.isPrefixOf_iff_prefix.mpr (List.prefix_append _ _)
  simp only [list_all_courses, List.filterMap_cons, List.filterMap_nil, hpre,
    if_true, List.mem_singleton] at hname
  subst hname
  unfold displayName
  rw [show ((("course-".data) ++ s).drop 7) = s from by
    have h7 : ("course-".data).length = 7 := rfl
    rw [← h7]
    exact List.drop_left _ _]
  rw [slugify_pyTitle]
  exact slugify_map_rep_eq s hchars hchain hhead hlast

/-- Witness for C10 at the slug `"data-structures"`. -/
theorem c10_listed_course_names_round_trip_witness :
    goodSlugB ("data-structures".data) = true ∧
    ∀ name ∈ list_all_courses
        ⟨[((("course-".data) ++ ("data-structures".data)), ([] : List Passage))]⟩,
      _slugify name = ("data-structures".data) :=
  ⟨by decide,
   c10_listed_course_names_round_trip ("data-structures".data) [] (by decide)⟩

end Mindly

